import Mathlib

/-
  Verification development for the contractapi operation registry and
  dispatcher (hyperledger fabric-chaincode-go, awjh-ibm fork).

  The Go source is embedded shallowly: Go types that can cross the
  contract API boundary become the inductive `GoType`; the reflection
  driven validators, schema builders and argument formatters become
  structurally recursive Lean functions translated clause by clause from
  the Go source files (contractapi/internal/utils.go,
  contractapi/internal/contract_function.go, contractapi/metadata).
  Parts of the repository whose source is not available here (the
  chaincode dispatch loop, contract registration, the basic-type table)
  are modelled from the specification document and are marked
  "Modelled from the spec" on their doc comments.
-/

set_option autoImplicit false

namespace ContractApi

/-! ## Go types

`BasicKind` lists the reflect kinds that appear as keys of the
`types.BasicTypes` table (pinned by TestListBasicTypes): bool, string,
the int/uint family and the two float kinds.  The interface kind is also
a key of that table; it is represented separately by `GoType.iface`
which records the interface's `String()` so that the special case for
non-empty interfaces in `typeIsValid` can be expressed. -/

inductive BasicKind where
  | bool
  | string
  | int
  | int8
  | int16
  | int32
  | int64
  | uint
  | uint8
  | uint16
  | uint32
  | uint64
  | float32
  | float64
deriving DecidableEq

/-- The `reflect.Kind.String()` name of a basic kind. -/
def BasicKind.name : BasicKind → String
  | .bool => "bool"
  | .string => "string"
  | .int => "int"
  | .int8 => "int8"
  | .int16 => "int16"
  | .int32 => "int32"
  | .int64 => "int64"
  | .uint => "uint"
  | .uint8 => "uint8"
  | .uint16 => "uint16"
  | .uint32 => "uint32"
  | .uint64 => "uint64"
  | .float32 => "float32"
  | .float64 => "float64"

mutual

/-- Shallow embedding of the Go types handled by the contract API's
reflection code.  `strct` carries the bare declared name (reflect
`Name()`, possibly package qualified for `String()` purposes we keep one
name and use it for both) and the declared field list in declaration
order.  `other` covers every remaining kind (complex64, chan, func,
unsafe pointer, ...), carrying its `String()` representation. -/
inductive GoType where
  | basic (k : BasicKind)
  | iface (name : String)
  | array (len : Nat) (elem : GoType)
  | slice (elem : GoType)
  | mapType (key : GoType) (value : GoType)
  | strct (name : String) (fields : FieldList)
  | ptr (elem : GoType)
  | other (name : String)
deriving DecidableEq

/-- A struct's ordered field list: field name, `json` tag value (empty
string when the tag is absent) and field type. -/
inductive FieldList where
  | nil
  | cons (name : String) (tag : String) (ty : GoType) (rest : FieldList)
deriving DecidableEq

end

/-- Append of field lists, used to state enumeration lemmas. -/
def FieldList.append : FieldList → FieldList → FieldList
  | .nil, ys => ys
  | .cons n t ty rest, ys => .cons n t ty (rest.append ys)

/-- The `reflect.Type.String()` rendering of an embedded type. -/
def GoType.typeString : GoType → String
  | .basic k => k.name
  | .iface n => n
  | .array n e => "[" ++ toString n ++ "]" ++ e.typeString
  | .slice e => "[]" ++ e.typeString
  | .mapType k v => "map[" ++ k.typeString ++ "]" ++ v.typeString
  | .strct n _ => n
  | .ptr e => "*" ++ e.typeString
  | .other n => n

/-- Whether the type's reflect kind is a key of `types.BasicTypes`
(`_, ok := types.BasicTypes[t.Kind()]`).  All interface kinds are keys;
struct, ptr, array, slice, map and the `other` kinds are not. -/
def GoType.kindInBasicTypes : GoType → Bool
  | .basic _ => true
  | .iface _ => true
  | _ => false

/-- The universal error interface type (`reflect.TypeOf((*error)(nil)).Elem()`). -/
def errorType : GoType := .iface "error"

/-- Modelled from the spec: decimal rendering of a natural number
(`strconv.Itoa` / `%d` for the non-negative counts appearing in error
messages).  The first argument is fuel; `itoa` supplies `n + 1` which is
always enough digits. -/
def itoaCore : Nat → Nat → List Char
  | 0, _ => []
  | fuel + 1, n =>
    if n < 10 then [Char.ofNat (48 + n)]
    else itoaCore fuel (n / 10) ++ [Char.ofNat (48 + n % 10)]

/-- Decimal rendering of a natural number (`strconv.Itoa`). -/
def itoa (n : Nat) : String := ⟨itoaCore (n + 1) n⟩

/-- Modelled from the spec: `sliceAsCommaSentence` (its test pins the
behaviour: "one, two and three"; a single element stays alone). -/
def sliceAsCommaSentence : List String → String
  | [] => ""
  | [s] => s
  | [s, t] => s ++ " and " ++ t
  | s :: rest => s ++ ", " ++ sliceAsCommaSentence rest

/-- The sorted `types.BasicTypes` key names (pinned by TestListBasicTypes). -/
def basicTypesAsSlice : List String :=
  ["bool", "float32", "float64", "int", "int16", "int32", "int64", "int8",
   "interface", "string", "uint", "uint16", "uint32", "uint64", "uint8"]

/-- `listBasicTypes` renders the basic type names as a comma sentence. -/
def listBasicTypes : String := sliceAsCommaSentence basicTypesAsSlice

/-- `typeInSlice` from internal/utils.go: membership of a reflect type in
a list of additional types. -/
def typeInSlice (a : GoType) (list : List GoType) : Bool :=
  list.contains a

/-- The error text used by `typeIsValid` when a kind is unsupported:
with a non-empty allow list the message also names the allowed extras,
otherwise only the basic types are listed. -/
def typeIsValidErr (t : GoType) (additionalTypes : List GoType) : String :=
  if additionalTypes.length > 0 then
    "Type " ++ t.typeString ++ " is not valid. Expected a struct, one of the basic types "
      ++ listBasicTypes ++ ", an array/slice of these, or one of these additional types "
      ++ sliceAsCommaSentence (additionalTypes.map GoType.typeString)
  else
    "Type " ++ t.typeString ++ " is not valid. Expected a struct or one of the basic types "
      ++ listBasicTypes ++ " or an array/slice of these"

/-- Whether the reflect kind of a type is `reflect.String` (the map key
check in `typeIsValid`). -/
def GoType.kindIsString : GoType → Bool
  | .basic .string => true
  | _ => false

mutual

/-- `typeIsValid` from internal/utils.go, clause by clause.  The struct
and pointer-to-struct branches inline `structOfValidType` (defined below
as the source's standalone function) so that the recursion stays
structural; `structValidFields` is `structOfValidType`'s field loop.
`none` is Go's nil error, `some msg` an error with message `msg`. -/
def typeIsValid (t : GoType) (additionalTypes : List GoType) : Option String :=
  match t with
  | .array n e =>
    if n < 1 then some "Arrays must have length greater than 0"
    else typeIsValid e additionalTypes
  | .slice e => typeIsValid e []
  | .mapType k v =>
    if k.kindIsString then typeIsValid v []
    else some ("Map key type " ++ k.typeString ++ " is not valid. Expected string")
  | .strct n fs =>
    if typeInSlice (.strct n fs) additionalTypes then none
    else structValidFields fs additionalTypes
  | .ptr e =>
    match e with
    | .strct n fs =>
      if typeInSlice (.ptr (.strct n fs)) additionalTypes then none
      else structValidFields fs additionalTypes
    | _ =>
      if typeInSlice (.ptr e) additionalTypes then none
      else some (typeIsValidErr (.ptr e) additionalTypes)
  | .basic _ => none
  | .iface n =>
    if n == "interface {}" then none
    else if typeInSlice (.iface n) additionalTypes then none
    else some (typeIsValidErr (.iface n) additionalTypes)
  | .other n =>
    if typeInSlice (.other n) additionalTypes then none
    else some (typeIsValidErr (.other n) additionalTypes)

/-- The field loop of `structOfValidType`: every field's type is checked
(`for i := 0; i < obj.NumField(); i++`), the first error is returned.
There is no exported-name test in this loop. -/
def structValidFields (fs : FieldList) (additionalTypes : List GoType) : Option String :=
  match fs with
  | .nil => none
  | .cons _ _ ty rest =>
    match typeIsValid ty additionalTypes with
    | some e => some e
    | none => structValidFields rest additionalTypes

end

/-- `arrayOfValidType` from internal/utils.go: the reflect array value is
represented by its length and element type.  A zero length array is an
error; otherwise the element type is validated with the same allow list. -/
def arrayOfValidType (len : Nat) (elem : GoType) (additionalTypes : List GoType) : Option String :=
  if len < 1 then some "Arrays must have length greater than 0"
  else typeIsValid elem additionalTypes

/-- Strip one pointer indirection (`if obj.Kind() == reflect.Ptr  obj = obj.Elem()`). -/
def GoType.derefPtr : GoType → GoType
  | .ptr e => e
  | t => t

/-- A struct's declared field list (`nil` for every other kind). -/
def GoType.fieldsOf : GoType → FieldList
  | .strct _ fs => fs
  | _ => .nil

/-- The bare declared type name (`reflect.Type.Name()`).  Unnamed
composite kinds have no declared name. -/
def GoType.structName : GoType → String
  | .strct n _ => n
  | .basic k => k.name
  | .iface n => n
  | .other n => n
  | _ => ""

/-- `structOfValidType` from internal/utils.go: dereference a pointer,
then validate every field's type in order, returning the first error.
Fields are not filtered or cut off by exportedness here. -/
def structOfValidType (obj : GoType) (additionalTypes : List GoType) : Option String :=
  structValidFields obj.derefPtr.fieldsOf additionalTypes

/-- The struct branch of `typeIsValid` is exactly `structOfValidType`
(the inlining above preserved the source's call structure). -/
theorem typeIsValid_strct_eq (n : String) (fs : FieldList) (ats : List GoType)
    (h : typeInSlice (.strct n fs) ats = false) :
    typeIsValid (.strct n fs) ats = structOfValidType (.strct n fs) ats := by
  simp [typeIsValid, structOfValidType, GoType.derefPtr, GoType.fieldsOf, h]

/-- The pointer-to-struct branch of `typeIsValid` is exactly
`structOfValidType`. -/
theorem typeIsValid_ptr_strct_eq (n : String) (fs : FieldList) (ats : List GoType)
    (h : typeInSlice (.ptr (.strct n fs)) ats = false) :
    typeIsValid (.ptr (.strct n fs)) ats = structOfValidType (.ptr (.strct n fs)) ats := by
  simp [typeIsValid, structOfValidType, GoType.derefPtr, GoType.fieldsOf, h]

/-- The array branch of `typeIsValid` is exactly `arrayOfValidType`. -/
theorem typeIsValid_array_eq (n : Nat) (e : GoType) (ats : List GoType) :
    typeIsValid (.array n e) ats = arrayOfValidType n e ats := by
  simp [typeIsValid, arrayOfValidType]

/-! ## Schema generation (contractapi/metadata)

`spec.Schema` values are represented only as deeply as the source
distinguishes them: a canonical primitive schema for each basic kind
(from the `types.BasicTypes` table), `ArrayProperty`, `MapProperty` and
`RefSchema`. -/

inductive Schema where
  | prim (kind : String)
  | arrayOf (elem : Schema)
  | mapOf (elem : Schema)
  | ref (path : String)
deriving DecidableEq

/-- Modelled from the spec: the canonical primitive schema produced by
`types.BasicTypes[kind].GetSchema()` (the types table source is not
available here); it is identified by the kind's name. -/
def basicSchema (t : GoType) : Schema :=
  match t with
  | .basic k => .prim k.name
  | _ => .prim "interface"

/-- `ObjectMetadata` from contractapi/metadata: a named component's
object schema.  The Go `Properties` map is an association list updated
with overwrite semantics. -/
structure ObjectMetadata where
  properties : List (String × Schema)
  required : List String
  additionalProperties : Bool
deriving DecidableEq

/-- The `ComponentMetadata.Schemas` map: component name to object schema. -/
def Components := List (String × ObjectMetadata)

instance : DecidableEq Components := by
  unfold Components
  infer_instance

/-- Go map read. -/
def Components.lookup (c : Components) (k : String) : Option ObjectMetadata :=
  List.lookup k c

/-- Go map write (overwrite an existing binding or append a new one). -/
def Components.set : Components → String → ObjectMetadata → Components
  | [], k, v => [(k, v)]
  | (k', v') :: rest, k, v =>
    if k' = k then (k, v) :: rest else (k', v') :: Components.set rest k v

/-- Map write for the `Properties` map of an object schema. -/
def setProp : List (String × Schema) → String → Schema → List (String × Schema)
  | [], k, v => [(k, v)]
  | (k', v') :: rest, k, v =>
    if k' = k then (k, v) :: rest else (k', v') :: setProp rest k v

/-- Whether a field name stops the component field enumeration:
`obj.Field(i).Name == "" || unicode.IsLower([]rune(obj.Field(i).Name)[0])`. -/
def fieldBreaksEnumeration (name : String) : Bool :=
  name == "" || (name.data.headD 'A').isLower

/-- The property name used for a field: the `json` tag when present,
otherwise the field's own name. -/
def fieldPropName (name tag : String) : String :=
  if tag == "" then name else tag

/-- The fresh object schema `addComponentIfNotExists` starts from. -/
def emptyObjectMetadata : ObjectMetadata :=
  { properties := [], required := [], additionalProperties := false }

mutual

/-- `GetSchema` from contractapi/metadata/schema: basic kinds (including
every interface kind) get their canonical primitive schema; arrays,
slices and maps wrap the element schema (`buildArraySchema`,
`buildSliceSchema`, `buildMapSchema` are defined below as the source's
standalone functions, inlined here to keep the recursion structural);
structs and pointers to structs go through the component table; anything
else is "was not a valid type".  The component table is threaded in
state-passing style for the Go pointer mutation, also on the error path. -/
def getSchema (t : GoType) (components : Components) : Except String Schema × Components :=
  match t with
  | .basic k => (.ok (basicSchema (.basic k)), components)
  | .iface n => (.ok (basicSchema (.iface n)), components)
  | .array n e =>
    if n < 1 then (.error "Arrays must have length greater than 0", components)
    else
      match getSchema e components with
      | (.error err, c') => (.error err, c')
      | (.ok s, c') => (.ok (.arrayOf s), c')
  | .slice e =>
    match getSchema e components with
    | (.error err, c') => (.error err, c')
    | (.ok s, c') => (.ok (.arrayOf s), c')
  | .mapType _ v =>
    match getSchema v components with
    | (.error err, c') => (.error err, c')
    | (.ok s, c') => (.ok (.mapOf s), c')
  | .strct n fs =>
    (match components.lookup n with
     | some _ => (.ok (.ref ("#/components/schemas/" ++ n)), components)
     | none =>
       match addComponentFields fs components emptyObjectMetadata with
       | (.error err, c') => (.error err, c')
       | (.ok om, c') => (.ok (.ref ("#/components/schemas/" ++ n)), c'.set n om))
  | .ptr e =>
    match e with
    | .strct n fs =>
      (match components.lookup n with
       | some _ => (.ok (.ref ("#/components/schemas/" ++ n)), components)
       | none =>
         match addComponentFields fs components emptyObjectMetadata with
         | (.error err, c') => (.error err, c')
         | (.ok om, c') => (.ok (.ref ("#/components/schemas/" ++ n)), c'.set n om))
    | _ => (.error ((GoType.ptr e).typeString ++ " was not a valid type"), components)
  | .other n => (.error (n ++ " was not a valid type"), components)

/-- The field enumeration loop of `addComponentIfNotExists`: it breaks
(not skips) at the first field whose name is empty or starts lower case;
every field before that point contributes a required property whose
schema comes from `GetSchema` against the threaded component table. -/
def addComponentFields (fs : FieldList) (components : Components) (schema : ObjectMetadata) :
    Except String ObjectMetadata × Components :=
  match fs with
  | .nil => (.ok schema, components)
  | .cons name tag ty rest =>
    if fieldBreaksEnumeration name then (.ok schema, components)
    else
      match getSchema ty components with
      | (.error err, c') => (.error err, c')
      | (.ok propSchema, c') =>
        addComponentFields rest c'
          { schema with
            required := schema.required ++ [fieldPropName name tag],
            properties := setProp schema.properties (fieldPropName name tag) propSchema }

end

/-- `addComponentIfNotExists` from contractapi/metadata: dereference a
pointer, return at once when the bare name is already a key of the
table, otherwise enumerate the fields (halting at the first non-exported
name) and insert the built object schema under the bare name.  Returns
Go's error value together with the mutated table. -/
def addComponentIfNotExists (obj : GoType) (components : Components) :
    Option String × Components :=
  let obj := obj.derefPtr
  match components.lookup obj.structName with
  | some _ => (none, components)
  | none =>
    match addComponentFields obj.fieldsOf components emptyObjectMetadata with
    | (.error err, c') => (some err, c')
    | (.ok om, c') => (none, c'.set obj.structName om)

/-- `buildStructSchema` from contractapi/metadata: add the component if
needed, then return a reference schema to it. -/
def buildStructSchema (obj : GoType) (components : Components) :
    Except String Schema × Components :=
  let obj' := obj.derefPtr
  match addComponentIfNotExists obj components with
  | (some err, c') => (.error err, c')
  | (none, c') => (.ok (.ref ("#/components/schemas/" ++ obj'.structName)), c')

/-- `buildArraySchema`: zero length arrays are rejected, otherwise the
element schema is wrapped in an array property. -/
def buildArraySchema (len : Nat) (elem : GoType) (components : Components) :
    Except String Schema × Components :=
  if len < 1 then (.error "Arrays must have length greater than 0", components)
  else
    match getSchema elem components with
    | (.error err, c') => (.error err, c')
    | (.ok s, c') => (.ok (.arrayOf s), c')

/-- `buildSliceSchema`: a slice is always schematised through a length-1
representative, so only the element type matters. -/
def buildSliceSchema (elem : GoType) (components : Components) :
    Except String Schema × Components :=
  match getSchema elem components with
  | (.error err, c') => (.error err, c')
  | (.ok s, c') => (.ok (.arrayOf s), c')

/-- The struct case of `getSchema` agrees with `buildStructSchema`. -/
theorem getSchema_strct_eq (n : String) (fs : FieldList) (c : Components) :
    getSchema (.strct n fs) c = buildStructSchema (.strct n fs) c := by
  simp only [getSchema, buildStructSchema, addComponentIfNotExists,
    GoType.derefPtr, GoType.structName, GoType.fieldsOf]
  cases hc : c.lookup n <;> simp only [hc]
  cases addComponentFields fs c emptyObjectMetadata with
  | mk r c' => cases r <;> simp

/-- The pointer-to-struct case of `getSchema` agrees with `buildStructSchema`. -/
theorem getSchema_ptr_strct_eq (n : String) (fs : FieldList) (c : Components) :
    getSchema (.ptr (.strct n fs)) c = buildStructSchema (.ptr (.strct n fs)) c := by
  simp only [getSchema, buildStructSchema, addComponentIfNotExists,
    GoType.derefPtr, GoType.structName, GoType.fieldsOf]
  cases hc : c.lookup n <;> simp only [hc]
  cases addComponentFields fs c emptyObjectMetadata with
  | mk r c' => cases r <;> simp

/-! ## ValidateErrorsToString (contractapi/internal/utils/utils.go)

The gojsonschema result errors are represented by their `String()`
renderings. -/

/-- `strings.Trim(s, "\x7bc\x7d")` for a single cut character: remove every
leading and trailing occurrence of `c`. -/
def stringsTrim (c : Char) (s : String) : String :=
  ⟨((s.data.dropWhile (· == c)).reverse.dropWhile (· == c)).reverse⟩

/-- The accumulation loop of `ValidateErrorsToString`:
`toReturn += strconv.Itoa(i+1) + ". " + v.String() + "\n"`. -/
def validateErrorsLoop : Nat → List String → String
  | _, [] => ""
  | i, v :: rest => itoa (i + 1) ++ ". " ++ v ++ "\n" ++ validateErrorsLoop (i + 1) rest

/-- `ValidateErrorsToString` from internal/utils: number every
violation from 1, append a newline after each, then trim the newlines
off both ends. -/
def ValidateErrorsToString (resErrors : List String) : String :=
  stringsTrim '\n' (validateErrorsLoop 0 resErrors)

/-- The numbered rendering of a violation list starting at a given
ordinal: "<n>. <violation>" for each entry. -/
def numberedFrom : Nat → List String → List String
  | _, [] => []
  | k, v :: rest => (itoa k ++ ". " ++ v) :: numberedFrom (k + 1) rest

/-- Join a list of strings with single newlines. -/
def joinedByNewlines : List String → String
  | [] => ""
  | [s] => s
  | s :: rest => s ++ "\n" ++ joinedByNewlines rest

/-- Every string in the list followed by a newline, concatenated (the
shape `validateErrorsLoop` produces). -/
def chunked : List String → String
  | [] => ""
  | s :: rest => s ++ "\n" ++ chunked rest

/-- Char-list image of `chunked`. -/
def chunkedL : List (List Char) → List Char
  | [] => []
  | x :: rest => x ++ '\n' :: chunkedL rest

/-- Char-list image of `joinedByNewlines`. -/
def intercalL : List (List Char) → List Char
  | [] => []
  | [x] => x
  | x :: rest => x ++ '\n' :: intercalL rest

theorem digitChar_ne_newline (k : Nat) (hk : k < 10) : Char.ofNat (48 + k) ≠ '\n' := by
  interval_cases k <;> decide

theorem newline_not_mem_itoaCore (fuel : Nat) : ∀ n, '\n' ∉ itoaCore fuel n := by
  induction fuel with
  | zero => intro n; simp [itoaCore]
  | succ f ih =>
    intro n
    simp only [itoaCore]
    split
    · intro h
      rw [List.mem_singleton] at h
      exact digitChar_ne_newline n (by omega) h.symm
    · intro h
      rcases List.mem_append.mp h with h | h
      · exact ih _ h
      · rw [List.mem_singleton] at h
        exact digitChar_ne_newline (n % 10) (Nat.mod_lt _ (by omega)) h.symm

theorem itoaCore_ne_nil (fuel n : Nat) : itoaCore (fuel + 1) n ≠ [] := by
  simp only [itoaCore]
  split
  · simp
  · simp

theorem itoa_data (n : Nat) : (itoa n).data = itoaCore (n + 1) n := rfl

theorem dropWhile_eq_self_of_no_newline (m : List Char) (h : '\n' ∉ m) :
    m.dropWhile (· == '\n') = m := by
  cases m with
  | nil => rfl
  | cons c rest =>
    rw [List.dropWhile_cons_of_neg]
    simp only [ne_eq, beq_iff_eq]
    intro hc
    exact h (hc ▸ List.mem_cons_self c rest)

theorem chunkedL_front_trim (L : List (List Char))
    (h : ∀ x ∈ L, x ≠ [] ∧ '\n' ∉ x) :
    (chunkedL L).dropWhile (· == '\n') = chunkedL L := by
  cases L with
  | nil => rfl
  | cons x rest =>
    obtain ⟨hne, hnl⟩ := h x (List.mem_cons_self x rest)
    cases x with
    | nil => exact absurd rfl hne
    | cons c x' =>
      simp only [chunkedL, List.cons_append]
      rw [List.dropWhile_cons_of_neg]
      simp only [beq_iff_eq]
      intro hc
      exact hnl (hc ▸ List.mem_cons_self c x')

theorem intercalL_ne_nil (L : List (List Char)) (hL : L ≠ [])
    (h : ∀ x ∈ L, x ≠ [] ∧ '\n' ∉ x) : intercalL L ≠ [] := by
  cases L with
  | nil => exact absurd rfl hL
  | cons x rest =>
    obtain ⟨hne, _⟩ := h x (List.mem_cons_self x rest)
    cases rest with
    | nil => exact hne
    | cons y r =>
      simp only [intercalL]
      intro hemp
      rcases List.append_eq_nil.mp hemp with ⟨_, h2⟩
      exact List.cons_ne_nil _ _ h2

theorem chunkedL_back_trim (L : List (List Char))
    (h : ∀ x ∈ L, x ≠ [] ∧ '\n' ∉ x) :
    ((chunkedL L).reverse.dropWhile (· == '\n')).reverse = intercalL L := by
  induction L with
  | nil => rfl
  | cons x rest ih =>
    obtain ⟨hne, hnl⟩ := h x (List.mem_cons_self x rest)
    cases rest with
    | nil =>
      simp only [chunkedL, intercalL, List.reverse_append, List.reverse_cons,
        List.reverse_nil, List.nil_append, List.cons_append]
      rw [List.dropWhile_cons_of_pos (by simp)]
      rw [dropWhile_eq_self_of_no_newline x.reverse (by simpa using hnl)]
      simp
    | cons y r =>
      have hrest : ∀ z ∈ y :: r, z ≠ [] ∧ '\n' ∉ z := fun z hz => h z (List.mem_cons_of_mem x hz)
      have ihr := ih hrest
      have hCne : (chunkedL (y :: r)).reverse.dropWhile (· == '\n') ≠ [] := by
        intro hemp
        have : intercalL (y :: r) = [] := by rw [← ihr, hemp]; rfl
        exact intercalL_ne_nil (y :: r) (List.cons_ne_nil _ _) hrest this
      have hmid : List.dropWhile (· == '\n') ((chunkedL (y :: r)).reverse ++ ['\n'])
          = (chunkedL (y :: r)).reverse.dropWhile (· == '\n') ++ ['\n'] := by
        rw [List.dropWhile_append]
        cases hdw : (chunkedL (y :: r)).reverse.dropWhile (· == '\n') with
        | nil => exact absurd hdw hCne
        | cons a as => simp
      have hsplit : chunkedL (x :: y :: r) = x ++ '\n' :: chunkedL (y :: r) := rfl
      have houtne : (chunkedL (y :: r)).reverse.dropWhile (· == '\n') ++ ['\n'] ≠ [] := by
        simp
      calc ((chunkedL (x :: y :: r)).reverse.dropWhile (· == '\n')).reverse
          = (List.dropWhile (· == '\n')
              (((chunkedL (y :: r)).reverse ++ ['\n']) ++ x.reverse)).reverse := by
            rw [hsplit]
            simp [List.reverse_append, List.append_assoc]
        _ = ((List.dropWhile (· == '\n') ((chunkedL (y :: r)).reverse ++ ['\n']))
              ++ x.reverse).reverse := by
            rw [List.dropWhile_append]
            rw [hmid]
            cases hdw : (chunkedL (y :: r)).reverse.dropWhile (· == '\n') with
            | nil => exact absurd hdw hCne
            | cons a as => simp [hmid, hdw]
        _ = x.reverse.reverse
              ++ (List.dropWhile (· == '\n') ((chunkedL (y :: r)).reverse ++ ['\n'])).reverse := by
            rw [List.reverse_append]
        _ = x ++ '\n' :: intercalL (y :: r) := by
            rw [hmid, List.reverse_append, ihr]
            simp
        _ = intercalL (x :: y :: r) := rfl

theorem stringsTrim_chunkedL (L : List (List Char))
    (h : ∀ x ∈ L, x ≠ [] ∧ '\n' ∉ x) :
    (((chunkedL L).dropWhile (· == '\n')).reverse.dropWhile (· == '\n')).reverse
      = intercalL L := by
  rw [chunkedL_front_trim L h, chunkedL_back_trim L h]

theorem chunked_data (l : List String) : (chunked l).data = chunkedL (l.map String.data) := by
  induction l with
  | nil => rfl
  | cons s rest ih =>
    simp only [chunked, chunkedL, List.map_cons, String.data_append, ih]
    simp [show ("\n").data = ['\n'] from rfl, List.append_assoc]

theorem joinedByNewlines_data (l : List String) :
    (joinedByNewlines l).data = intercalL (l.map String.data) := by
  induction l with
  | nil => rfl
  | cons s rest ih =>
    cases rest with
    | nil => rfl
    | cons t r =>
      simp only [joinedByNewlines, intercalL, List.map_cons, String.data_append, ih]
      simp [show ("\n").data = ['\n'] from rfl, List.append_assoc]

theorem validateErrorsLoop_eq_chunked (vs : List String) : ∀ i,
    validateErrorsLoop i vs = chunked (numberedFrom (i + 1) vs) := by
  induction vs with
  | nil => intro i; rfl
  | cons v rest ih =>
    intro i
    apply String.ext
    simp only [validateErrorsLoop, numberedFrom, chunked, String.data_append, ih (i + 1)]

theorem numberedFrom_entries (vs : List String) (h : ∀ v ∈ vs, '\n' ∉ v.data) : ∀ k,
    ∀ x ∈ (numberedFrom k vs).map String.data, x ≠ [] ∧ '\n' ∉ x := by
  induction vs with
  | nil => intro k x hx; simp [numberedFrom] at hx
  | cons v rest ih =>
    intro k x hx
    simp only [numberedFrom, List.map_cons, List.mem_cons] at hx
    rcases hx with hx | hx
    · subst hx
      constructor
      · simp only [String.data_append, itoa_data]
        intro hemp
        rcases List.append_eq_nil.mp hemp with ⟨h1, _⟩
        rcases List.append_eq_nil.mp h1 with ⟨h2, _⟩
        exact itoaCore_ne_nil k k h2
      · simp only [String.data_append, itoa_data]
        intro hmem
        rcases List.mem_append.mp hmem with hmem | hmem
        · rcases List.mem_append.mp hmem with hmem | hmem
          · exact newline_not_mem_itoaCore (k + 1) k hmem
          · simp [show (". ").data = ['.', ' '] from rfl] at hmem
        · exact h v (List.mem_cons_self v rest) hmem
    · exact ih (fun w hw => h w (List.mem_cons_of_mem v hw)) (k + 1) x hx

/-! ## Contract functions (contractapi/internal/contract_function.go) -/

/-- `contractFunctionReturns`: the validated return shape of a callable.
`success = none` with `error = false` is no return at all. -/
structure contractFunctionReturns where
  success : Option GoType
  error : Bool
deriving DecidableEq

/-- `contractFunctionParams`: whether the callable takes the transaction
context (as its first parameter) and the non-context parameter types in
declaration order. -/
structure contractFunctionParams where
  context : Bool
  fields : List GoType
deriving DecidableEq

/-- The method name as used in error messages: an empty reflected name
(a plain func rather than a method) reads "Function". -/
def effectiveMethodName (methodName : String) : String :=
  if methodName == "" then "Function" else methodName

/-- `methodToContractFunctionReturns` from internal/contract_function.go,
on the method's name and list of return types.  More than two returns is
an error naming the count; one return is validated with the error type
allow-listed (the error type alone is the errorOnly shape); two returns
require a valid ordinary first return (error NOT allow-listed) and a
second return whose `String()` is exactly "error". -/
def methodToContractFunctionReturns (methodName : String) (outs : List GoType) :
    Except String contractFunctionReturns :=
  let methodName := effectiveMethodName methodName
  if outs.length > 2 then
    .error ("Functions may only return a maximum of two values. " ++ methodName
      ++ " returns " ++ itoa outs.length)
  else
    match outs with
    | [outType] =>
      match typeIsValid outType [errorType] with
      | some typeError =>
        .error (methodName ++ " contains invalid single return type. " ++ typeError)
      | none =>
        if outType = errorType then .ok ⟨none, true⟩
        else .ok ⟨some outType, false⟩
    | [firstOut, secondOut] =>
      match typeIsValid firstOut [] with
      | some firstTypeError =>
        .error (methodName ++ " contains invalid first return type. " ++ firstTypeError)
      | none =>
        if secondOut.typeString ≠ "error" then
          .error (methodName ++ " contains invalid second return type. Type "
            ++ secondOut.typeString ++ " is not valid. Expected error")
        else .ok ⟨some firstOut, true⟩
    | _ => .ok ⟨none, false⟩

/-- `ParameterMetadata` from contractapi/metadata (name and schema; the
description is never read by the dispatch path). -/
structure ParameterMetadata where
  name : String
  schema : Schema
deriving DecidableEq

/-- `TransactionMetadata` as consumed by `formatArgs`: the declared
parameter list of the supplementary document for one transaction. -/
structure TransactionMetadata where
  parameters : List ParameterMetadata

/-- The slice of a `ContractFunction` that `formatArgs` reads. -/
structure ContractFunction where
  params : contractFunctionParams

/-- The conversion loop of `formatArgs`, walking the declared field
types; the raw string parameters and (when validating) the metadata
parameters are consumed in lockstep, so any surplus raw parameter is
never read.  `convertArgF` stands for `convertArg` (JSON/strconv
conversion through `encoding/json` and the types table) and `validateF`
for `validateAgainstSchema` (gojsonschema); both are inputs of the
embedding because their bodies live in external libraries.  The third
list being shorter than the field list is impossible behind the length
check in `formatArgs` (Go would panic on the index). -/
def formatArgsLoop {V : Type} (convertArgF : GoType → String → Except String V)
    (validateF : GoType → String → V → Schema → Option ParameterMetadata → Option String)
    (shouldValidate : Bool) :
    List GoType → List String → Option (List ParameterMetadata) → Except String (List V)
  | [], _, _ => .ok []
  | _ :: _, [], _ => .error "runtime error: index out of range"
  | fieldType :: restFields, p :: restParams, mdParams =>
    let paramName := match mdParams with
      | some (pm :: _) => " " ++ pm.name
      | _ => ""
    match convertArgF fieldType p with
    | .error err => .error ("Error converting parameter" ++ paramName ++ ". " ++ err)
    | .ok converted =>
      let validationResult :=
        if shouldValidate then
          match mdParams with
          | some (pm :: _) =>
            match validateF fieldType p converted pm.schema (some pm) with
            | some err => some ("Error validating parameter " ++ pm.name ++ ". " ++ err)
            | none => none
          | _ => none
        else none
      match validationResult with
      | some err => .error err
      | none =>
        match formatArgsLoop convertArgF validateF shouldValidate restFields restParams
            (mdParams.map (fun l => l.tail)) with
        | .error err => .error err
        | .ok rest => .ok (converted :: rest)

/-- `formatArgs` from internal/contract_function.go: when supplementary
metadata is supplied its declared parameter count must equal the
function's non-context parameter count, else an error stating expected
and received counts; then the context (when taken) is placed first;
fewer raw parameters than declared is an error stating expected and
received counts; each of the first `numParams` raw parameters is
converted (and validated when metadata is present) in order. -/
def formatArgs {V : Type} (convertArgF : GoType → String → Except String V)
    (validateF : GoType → String → V → Schema → Option ParameterMetadata → Option String)
    (fn : ContractFunction) (ctx : V) (supplementaryMetadata : Option TransactionMetadata)
    (params : List String) : Except String (List V) :=
  let numParams := fn.params.fields.length
  let metadataCheck : Option String :=
    match supplementaryMetadata with
    | some md =>
      if md.parameters.length ≠ numParams then
        some ("Incorrect number of params in supplementary metadata. Expected "
          ++ itoa numParams ++ ", received " ++ itoa md.parameters.length)
      else none
    | none => none
  match metadataCheck with
  | some err => .error err
  | none =>
    if params.length < numParams then
      .error ("Incorrect number of params. Expected " ++ itoa numParams
        ++ ", received " ++ itoa params.length)
    else
      match formatArgsLoop convertArgF validateF supplementaryMetadata.isSome
          fn.params.fields params (supplementaryMetadata.map (fun md => md.parameters)) with
      | .error err => .error err
      | .ok converted =>
        .ok ((if fn.params.context then [ctx] else []) ++ converted)

/-! ## Registry and dispatcher

Modelled from the spec: the chaincode dispatch loop and contract
registration (`contract_chaincode.go`) are not among the available
source files (only their tests, the feature files and callers are), so
this part follows spec sections 4.4 and 4.5 and the messages pinned by
the tests.  A dispatch-time phase (hook or operation body) is a function
of an opaque world `W` standing for the shared per-dispatch context
instance plus any state the user code touches; each phase returns the
updated world. -/

/-- The success/failure response of one dispatch (shim.Success or
shim.Error with a message). -/
inductive Response where
  | success (payload : String)
  | failure (message : String)
deriving DecidableEq

/-- Calling conventions (`CallType` from internal/contract_function.go). -/
inductive CallType where
  | NA
  | Submit
  | Evaluate
deriving DecidableEq

/-- Modelled from the spec: a registered operation.  Running it yields
the encoded payload together with the raw returned value handed to the
after hook (none when the operation returns nothing), or its declared
error. -/
structure RegisteredOp (W : Type) where
  callType : CallType
  run : W → W × Except String (String × Option String)

/-- Modelled from the spec: one namespace entry of the registry
(`contractChaincodeContract`): version, operation map, optional
before/after/unknown transaction hooks. -/
structure contractChaincodeContract (W : Type) where
  version : String
  functions : List (String × RegisteredOp W)
  beforeTransaction : Option (W → W × Option String)
  afterTransaction : Option (W → Option String → W × Option String)
  unknownTransaction : Option (W → W × Except String String)

/-- Modelled from the spec: the finalized metadata document reduced to
what the claims inspect: per namespace its version and the name/tag of
every operation. -/
structure MetadataDocument where
  namespaces : List (String × String × List (String × CallType))
deriving DecidableEq

/-- Modelled from the spec: the top level registry
(`ContractChaincode`): namespace map, default namespace name, and the
finalized metadata document. -/
structure ContractChaincode (W : Type) where
  contracts : List (String × contractChaincodeContract W)
  defaultContract : String
  metadata : MetadataDocument

/-- Modelled from the spec: the serialized form the built-in metadata
operation returns (the JSON rendering is outside the embedded core; any
injective-enough deterministic rendering serves the claims). -/
def metadataPayload (doc : MetadataDocument) : String :=
  String.intercalate ";" (doc.namespaces.map (fun nsEntry =>
    nsEntry.1 ++ ":" ++ nsEntry.2.1 ++ ":"
      ++ String.intercalate "," (nsEntry.2.2.map (fun op =>
        op.1 ++ "/" ++ (match op.2 with
          | .Submit => "submit"
          | .Evaluate => "evaluate"
          | .NA => "na")))))

/-- Namespace lookup in the registry / operation lookup in an entry. -/
def lookupName {α : Type} (m : List (String × α)) (k : String) : Option α :=
  List.lookup k m

/-- Modelled from the spec: run the hook/operation sequence of one
dispatch for a resolved main phase.  The before hook (when declared)
runs first and its error aborts everything with that error as the
response; then the main phase; a main error becomes the response and the
after hook never runs; then the after hook (when declared) receives the
value the main phase just produced, and its error replaces the
otherwise successful response.  All phases thread the same world. -/
def runOperation {W : Type} (before : Option (W → W × Option String))
    (main : W → W × Except String (String × Option String))
    (after : Option (W → Option String → W × Option String)) (w : W) : W × Response :=
  let beforeResult := match before with
    | some b => b w
    | none => (w, none)
  match beforeResult with
  | (w1, some err) => (w1, .failure err)
  | (w1, none) =>
    match main w1 with
    | (w2, .error err) => (w2, .failure err)
    | (w2, .ok (payload, value)) =>
      match after with
      | none => (w2, .success payload)
      | some a =>
        match a w2 value with
        | (w3, some err) => (w3, .failure err)
        | (w3, none) => (w3, .success payload)

/-- Modelled from the spec: resolve and run one parsed command
(namespace and operation name) against the registry.  An unknown
namespace fails with "Contract not found with name <ns>".  A known
namespace with an unknown operation runs the unknown hook as the main
phase when one is declared, and otherwise fails with
"Function <op> not found in contract <ns>". -/
def dispatchParsed {W : Type} (cc : ContractChaincode W) (ns op : String) (w : W) :
    W × Response :=
  match lookupName cc.contracts ns with
  | none => (w, .failure ("Contract not found with name " ++ ns))
  | some entry =>
    let mainPhase : Option (W → W × Except String (String × Option String)) :=
      match lookupName entry.functions op with
      | some f => some f.run
      | none =>
        match entry.unknownTransaction with
        | some u => some (fun w' =>
            match u w' with
            | (w'', .error err) => (w'', .error err)
            | (w'', .ok payload) => (w'', .ok (payload, none)))
        | none => none
    match mainPhase with
    | none => (w, .failure ("Function " ++ op ++ " not found in contract " ++ ns))
    | some main => runOperation entry.beforeTransaction main entry.afterTransaction w

/-- Modelled from the spec: split a command at its first colon into
namespace and operation; without a colon the registry's default
namespace is used. -/
def parseCommand {W : Type} (cc : ContractChaincode W) (command : String) : String × String :=
  match command.splitOn ":" with
  | [op] => (cc.defaultContract, op)
  | ns :: rest => (ns, String.intercalate ":" rest)
  | [] => (cc.defaultContract, "")

/-- Modelled from the spec: a full dispatch parses the command and
resolves it. -/
def dispatch {W : Type} (cc : ContractChaincode W) (command : String) (w : W) :
    W × Response :=
  let parsed := parseCommand cc command
  dispatchParsed cc parsed.1 parsed.2 w

/-! ### Registration -/

/-- Modelled from the spec: the registerable surface of one source
object: its declared type identifier, the optional name/version
overrides (empty string when unset, as `GetName`/`GetVersion` return), the
outcome of building each public operation's descriptor in enumeration
order, the declared evaluate list, the declared ignore list, and the
optional hooks. -/
structure ContractDetails (W : Type) where
  typeName : String
  name : String
  version : String
  transactions : List (String × Except String (W → W × Except String (String × Option String)))
  evaluateTransactions : List String
  ignoredFunctions : List String
  beforeTransaction : Option (W → W × Option String)
  afterTransaction : Option (W → Option String → W × Option String)
  unknownTransaction : Option (W → W × Except String String)

/-- Modelled from the spec: the derived namespace name: the explicit
override or the object's declared type identifier. -/
def deriveContractName {W : Type} (d : ContractDetails W) : String :=
  if d.name = "" then d.typeName else d.name

/-- Modelled from the spec: the fixed framework deny list (the lifecycle
getters/setters of the base Contract type are never registered as
operations). -/
def contractDenyList : List String :=
  ["SetName", "GetName", "SetVersion", "GetVersion",
   "SetUnknownTransaction", "GetUnknownTransaction",
   "SetBeforeTransaction", "GetBeforeTransaction",
   "SetAfterTransaction", "GetAfterTransaction",
   "SetTransactionContextHandler", "GetTransactionContextHandler",
   "GetIgnoredFunctions"]

/-- Modelled from the spec: build the operation map of one namespace:
every enumerated operation not excluded is added, tagged evaluate when
named in the declared evaluate list and submit otherwise; the first
descriptor construction error aborts the whole registration. -/
def buildFunctions {W : Type}
    (transactions : List (String × Except String (W → W × Except String (String × Option String))))
    (evaluateTransactions : List String) (excludes : List String) :
    Except String (List (String × RegisteredOp W)) :=
  match transactions with
  | [] => .ok []
  | (opName, built) :: rest =>
    if excludes.contains opName then
      buildFunctions rest evaluateTransactions excludes
    else
      match built with
      | .error err => .error err
      | .ok run =>
        match buildFunctions rest evaluateTransactions excludes with
        | .error err => .error err
        | .ok restOps =>
          .ok ((opName,
            { callType := if evaluateTransactions.contains opName then .Evaluate else .Submit,
              run := run }) :: restOps)

/-- Modelled from the spec: `addContract`.  A namespace whose derived
name already exists fails with the conflict error the tests pin
("Multiple contracts being merged into chaincode with name <ns>") and
the map is returned to the caller only through the error-free branch, so
the existing entry is untouched; otherwise the entry is appended with
the declared version (default "latest") and hooks. -/
def addContract {W : Type} (contracts : List (String × contractChaincodeContract W))
    (d : ContractDetails W) (excludes : List String) :
    Except String (List (String × contractChaincodeContract W)) :=
  let ns := deriveContractName d
  match lookupName contracts ns with
  | some _ => .error ("Multiple contracts being merged into chaincode with name " ++ ns)
  | none =>
    match buildFunctions d.transactions d.evaluateTransactions excludes with
    | .error err => .error err
    | .ok functions =>
      .ok (contracts ++ [(ns,
        { version := if d.version = "" then "latest" else d.version,
          functions := functions,
          beforeTransaction := d.beforeTransaction,
          afterTransaction := d.afterTransaction,
          unknownTransaction := d.unknownTransaction })])

/-- Modelled from the spec: fold `addContract` over the source objects;
the first failure aborts the whole fold with that error. -/
def addContractsFold {W : Type} (configs : List (ContractDetails W))
    (contracts : List (String × contractChaincodeContract W)) :
    Except String (List (String × contractChaincodeContract W)) :=
  match configs with
  | [] => .ok contracts
  | d :: rest =>
    match addContract contracts d (contractDenyList ++ d.ignoredFunctions) with
    | .error err => .error err
    | .ok contracts' => addContractsFold rest contracts'

/-- The name of the injected built-in namespace. -/
def SystemContractName : String := "org.hyperledger.fabric"

/-- Modelled from the spec: the reflected metadata of a namespace map:
name, version and operation names/tags (alphabetical order and schemas
live outside what the claims inspect; enumeration order is kept). -/
def reflectMetadataDoc {W : Type}
    (contracts : List (String × contractChaincodeContract W)) : MetadataDocument :=
  ⟨contracts.map (fun e =>
    (e.1, e.2.version, e.2.functions.map (fun f => (f.1, f.2.callType))))⟩

/-- Modelled from the spec: the built-in evaluate-only metadata
operation, bound to a finalized metadata document: it returns the
document's serialized form as its payload, leaving the world untouched. -/
def getMetadataFn {W : Type} (doc : MetadataDocument) : RegisteredOp W :=
  { callType := .Evaluate,
    run := fun w => (w, .ok (metadataPayload doc, none)) }

/-- Modelled from the spec: the built-in namespace entry, exposing only
the metadata operation and no hooks. -/
def systemContractEntry {W : Type} (doc : MetadataDocument) : contractChaincodeContract W :=
  { version := "latest",
    functions := [("GetMetadata", getMetadataFn doc)],
    beforeTransaction := none,
    afterTransaction := none,
    unknownTransaction := none }

/-- Modelled from the spec: `CreateNewChaincode`: fold `addContract`
over the supplied objects (first failure aborts with that error and no
registry); on success build the metadata document of the final namespace
topology (the user namespaces plus the built-in one) and inject the
built-in namespace exposing the single evaluate-tagged metadata
operation bound to that document.  The default namespace is the first
supplied object's. -/
def CreateNewChaincode {W : Type} (configs : List (ContractDetails W)) :
    Except String (ContractChaincode W) :=
  match addContractsFold configs [] with
  | .error err => .error err
  | .ok contracts =>
    match lookupName contracts SystemContractName with
    | some _ =>
      .error ("Multiple contracts being merged into chaincode with name " ++ SystemContractName)
    | none =>
      let doc := reflectMetadataDoc
        (contracts ++ [(SystemContractName, systemContractEntry (W := W) ⟨[]⟩)])
      .ok { contracts := contracts ++ [(SystemContractName, systemContractEntry doc)],
            defaultContract := (configs.map deriveContractName).headD "",
            metadata := doc }

/-! ## Claims -/

/-- C8: for every value failing schema validation the violations are all
reported in one message, numbered from 1, each formatted
"<n>. <violation>", joined by newlines.  `ValidateErrorsToString` is the
function that renders the gojsonschema violation list into the single
error message (its callers prefix "did not match schema:\n"); the
hypothesis states that the individual violation renderings carry no
newline of their own, as gojsonschema's single-line `String()` values do. -/
theorem validateErrorsToString_numbers_all_violations (resErrors : List String)
    (h : ∀ v ∈ resErrors, '\n' ∉ v.data) :
    ValidateErrorsToString resErrors = joinedByNewlines (numberedFrom 1 resErrors) := by
  unfold ValidateErrorsToString
  rw [validateErrorsLoop_eq_chunked resErrors 0]
  apply String.ext
  show (((chunked (numberedFrom 1 resErrors)).data.dropWhile
      (· == '\n')).reverse.dropWhile (· == '\n')).reverse = _
  rw [chunked_data, joinedByNewlines_data]
  exact stringsTrim_chunkedL _ (numberedFrom_entries resErrors h 1)

/-- Witness for C8 at the violation list of the metadata schema test:
three violations come back numbered 1..3 and newline separated. -/
theorem validateErrorsToString_numbers_all_violations_witness :
    ValidateErrorsToString
      ["contracts: Invalid type. Expected: object, given: null",
       "info: title is required", "info: version is required"] =
      "1. contracts: Invalid type. Expected: object, given: null\n2. info: title is required\n3. info: version is required" := by
  rw [validateErrorsToString_numbers_all_violations _ (by decide)]
  decide

/-- C6: return-shape validation accepts zero returns; one return that is
a valid ordinary value or exactly the error type (the latter classified
error-only); or two returns whose first validates as an ordinary value
with the error type not allow-listed and whose second is exactly the
error type; more than two returns is rejected naming the actual count,
and a non-error second return is rejected with the positional message. -/
theorem methodToContractFunctionReturns_shape (methodName : String) (outs : List GoType) :
    (outs.length > 2 →
      methodToContractFunctionReturns methodName outs =
        .error ("Functions may only return a maximum of two values. "
          ++ effectiveMethodName methodName ++ " returns " ++ itoa outs.length)) ∧
    (outs = [] → methodToContractFunctionReturns methodName outs = .ok ⟨none, false⟩) ∧
    (∀ t, outs = [t] → typeIsValid t [errorType] = none → t = errorType →
      methodToContractFunctionReturns methodName outs = .ok ⟨none, true⟩) ∧
    (∀ t, outs = [t] → typeIsValid t [errorType] = none → t ≠ errorType →
      methodToContractFunctionReturns methodName outs = .ok ⟨some t, false⟩) ∧
    (∀ t msg, outs = [t] → typeIsValid t [errorType] = some msg →
      methodToContractFunctionReturns methodName outs =
        .error (effectiveMethodName methodName
          ++ " contains invalid single return type. " ++ msg)) ∧
    (∀ a b, outs = [a, b] → typeIsValid a [] = none → b.typeString = "error" →
      methodToContractFunctionReturns methodName outs = .ok ⟨some a, true⟩) ∧
    (∀ a b, outs = [a, b] → typeIsValid a [] = none → b.typeString ≠ "error" →
      methodToContractFunctionReturns methodName outs =
        .error (effectiveMethodName methodName ++ " contains invalid second return type. Type "
          ++ b.typeString ++ " is not valid. Expected error")) ∧
    (∀ a b msg, outs = [a, b] → typeIsValid a [] = some msg →
      methodToContractFunctionReturns methodName outs =
        .error (effectiveMethodName methodName
          ++ " contains invalid first return type. " ++ msg)) ∧
    typeIsValid errorType [] = some (typeIsValidErr errorType []) := by
  refine ⟨?_, ?_, ?_, ?_, ?_, ?_, ?_, ?_, rfl⟩
  · intro h
    simp only [methodToContractFunctionReturns, if_pos h]
  · intro h
    subst h
    rfl
  · intro t h hv ht
    subst h
    subst ht
    simp [methodToContractFunctionReturns, hv]
  · intro t h hv ht
    subst h
    simp [methodToContractFunctionReturns, hv, ht]
  · intro t msg h hv
    subst h
    simp [methodToContractFunctionReturns, hv]
  · intro a b h hv hs
    subst h
    simp [methodToContractFunctionReturns, hv, hs]
  · intro a b h hv hs
    subst h
    simp [methodToContractFunctionReturns, hv, hs]
  · intro a b msg h hv
    subst h
    simp [methodToContractFunctionReturns, hv]

/-- Witness for C6: a string/error pair is accepted; three returns are
rejected with the count; a non-error second return is rejected with the
positional message; a sole error return is classified error-only. -/
theorem methodToContractFunctionReturns_shape_witness :
    methodToContractFunctionReturns "GoodReturnMethod" [.basic .string, errorType] =
        .ok ⟨some (.basic .string), true⟩ ∧
    methodToContractFunctionReturns "BadReturnMethod"
        [.basic .string, .basic .string, errorType] =
        .error "Functions may only return a maximum of two values. BadReturnMethod returns 3" ∧
    methodToContractFunctionReturns "BadMethodSecondReturn" [.basic .string, .basic .string] =
        .error "BadMethodSecondReturn contains invalid second return type. Type string is not valid. Expected error" ∧
    methodToContractFunctionReturns "GoodErrorMethod" [errorType] = .ok ⟨none, true⟩ := by
  refine ⟨?_, ?_, ?_, ?_⟩
  · have h := (methodToContractFunctionReturns_shape "GoodReturnMethod"
      [.basic .string, errorType]).2.2.2.2.2.1
    rw [h (.basic .string) errorType rfl (by decide) (by decide)]
  · have h := (methodToContractFunctionReturns_shape "BadReturnMethod"
      [.basic .string, .basic .string, errorType]).1
    rw [h (by decide)]
    rfl
  · have h := (methodToContractFunctionReturns_shape "BadMethodSecondReturn"
      [.basic .string, .basic .string]).2.2.2.2.2.2.1
    rw [h (.basic .string) (.basic .string) rfl (by decide) (by decide)]
    rfl
  · have h := (methodToContractFunctionReturns_shape "GoodErrorMethod" [errorType]).2.2.1
    rw [h errorType rfl (by decide) rfl]

/-- The conversion loop never reads beyond the declared field count:
with no supplementary metadata, running it on the first `fields.length`
raw parameters gives the same result as running it on all of them. -/
theorem formatArgsLoop_take {V : Type} (cf : GoType → String → Except String V)
    (vf : GoType → String → V → Schema → Option ParameterMetadata → Option String)
    (sv : Bool) :
    ∀ (fields : List GoType) (params : List String),
      fields.length ≤ params.length →
      formatArgsLoop cf vf sv fields (params.take fields.length) none =
        formatArgsLoop cf vf sv fields params none := by
  intro fields
  induction fields with
  | nil => intro params _; rfl
  | cons f fs ih =>
    intro params hlen
    cases params with
    | nil => simp at hlen
    | cons p ps =>
      show formatArgsLoop cf vf sv (f :: fs) (p :: ps.take fs.length) none = _
      simp only [formatArgsLoop, Option.map]
      rw [ih ps (by simpa using hlen)]

/-- C9: for an operation with `n` declared non-context parameters,
supplying more than `n` textual arguments is not an error: the result is
the same as with exactly the first `n` arguments (the surplus is never
read), while supplying fewer than `n` fails with the error stating the
expected and received counts.  Stated for dispatches without a
supplementary metadata document, as in the covering test. -/
theorem formatArgs_surplus_and_shortfall {V : Type}
    (convertArgF : GoType → String → Except String V)
    (validateF : GoType → String → V → Schema → Option ParameterMetadata → Option String)
    (fn : ContractFunction) (ctx : V) (params : List String) :
    (params.length < fn.params.fields.length →
      formatArgs convertArgF validateF fn ctx none params =
        .error ("Incorrect number of params. Expected " ++ itoa fn.params.fields.length
          ++ ", received " ++ itoa params.length)) ∧
    (fn.params.fields.length ≤ params.length →
      formatArgs convertArgF validateF fn ctx none params =
        formatArgs convertArgF validateF fn ctx none
          (params.take fn.params.fields.length)) := by
  constructor
  · intro h
    simp only [formatArgs, if_pos h]
  · intro h
    have htake : (params.take fn.params.fields.length).length = fn.params.fields.length := by
      rw [List.length_take, Nat.min_eq_left h]
    simp only [formatArgs, Option.isSome_none, Option.map]
    rw [htake]
    rw [if_neg (show ¬ params.length < fn.params.fields.length by omega)]
    rw [if_neg (show ¬ fn.params.fields.length < fn.params.fields.length from Nat.lt_irrefl _)]
    rw [formatArgsLoop_take convertArgF validateF false fn.params.fields params h]

/-- Sample conversion function for witnesses: parse a decimal int (the
shape of `convertArg` on an int field). -/
def intConvert (t : GoType) (s : String) : Except String Int :=
  match s.toInt? with
  | some v => .ok v
  | none =>
    .error ("Conversion error. Cannot convert passed value " ++ s ++ " to " ++ t.typeString)

/-- Sample validator for witnesses: accepts everything. -/
def noValidate (_ : GoType) (_ : String) (_ : Int) (_ : Schema)
    (_ : Option ParameterMetadata) : Option String :=
  none

/-- Sample function shape for witnesses: two int parameters, no context. -/
def twoIntFn : ContractFunction := ⟨⟨false, [.basic .int, .basic .int]⟩⟩

/-- Witness for C9: an operation declaring two int parameters accepts
four arguments (result equals the two argument call) and rejects one
argument with the counting error. -/
theorem formatArgs_surplus_and_shortfall_witness :
    formatArgs intConvert noValidate twoIntFn 0 none ["1", "2", "3", "4"] =
      formatArgs intConvert noValidate twoIntFn 0 none ["1", "2"] ∧
    formatArgs intConvert noValidate twoIntFn 0 none ["1"] =
      .error "Incorrect number of params. Expected 2, received 1" := by
  constructor
  · exact (formatArgs_surplus_and_shortfall intConvert noValidate twoIntFn 0
      ["1", "2", "3", "4"]).2 (by decide)
  · rw [(formatArgs_surplus_and_shortfall intConvert noValidate twoIntFn 0 ["1"]).1
      (by decide)]
    rfl

/-- A registerable object for the C7 counterexample: one operation that
takes two int parameters (its runnable form is irrelevant here). -/
def twoIntDetails : ContractDetails Int :=
  { typeName := "complexContract",
    name := "",
    version := "",
    transactions := [("NewObject", .ok (fun w => (w, .ok ("", none))))],
    evaluateTransactions := [],
    ignoredFunctions := [],
    beforeTransaction := none,
    afterTransaction := none,
    unknownTransaction := none }

/-- C7 counterexample: the supplementary-metadata parameter-count check
does not run at registration time, it runs when the operation is
invoked.  Registration of the object is not given the supplementary
document at all (spec section 4.4's `addNamespace` has no such input)
and succeeds, while argument formatting during a call — the path
`ContractFunction.Call` takes before invoking the function — fails with
the error stating the expected and received counts.  This contradicts
the claim's "registration fails ... (rather than the mismatch being
detected only when the operation is invoked)". -/
theorem supplementary_count_detected_at_invocation :
    (CreateNewChaincode [twoIntDetails]).toOption.isSome = true ∧
    formatArgs intConvert noValidate twoIntFn 0 (some ⟨[]⟩) ["1", "2"] =
      .error "Incorrect number of params in supplementary metadata. Expected 2, received 0" := by
  constructor
  · rfl
  · rfl

/-- C7 (amended): when a supplementary metadata document is supplied for
an operation and its declared parameter count differs from the
operation's reflected non-context parameter count, argument formatting
(run by `ContractFunction.Call` when the operation is invoked, before
any argument is converted or the function body runs) fails with an error
stating the expected and received counts. -/
theorem formatArgs_supplementary_count_mismatch {V : Type}
    (convertArgF : GoType → String → Except String V)
    (validateF : GoType → String → V → Schema → Option ParameterMetadata → Option String)
    (fn : ContractFunction) (ctx : V) (md : TransactionMetadata) (params : List String)
    (h : md.parameters.length ≠ fn.params.fields.length) :
    formatArgs convertArgF validateF fn ctx (some md) params =
      .error ("Incorrect number of params in supplementary metadata. Expected "
        ++ itoa fn.params.fields.length ++ ", received " ++ itoa md.parameters.length) := by
  simp only [formatArgs, if_pos h]

/-- Witness for the amended C7: a two parameter operation invoked with a
supplementary document declaring zero parameters fails with the counts
in the message. -/
theorem formatArgs_supplementary_count_mismatch_witness :
    formatArgs intConvert noValidate twoIntFn 0 (some ⟨[]⟩) ["1", "2", "3"] =
      .error "Incorrect number of params in supplementary metadata. Expected 2, received 0" := by
  rw [formatArgs_supplementary_count_mismatch intConvert noValidate twoIntFn 0 ⟨[]⟩
    ["1", "2", "3"] (by decide)]
  rfl

/-- A field list as a plain list of (name, tag, type) triples. -/
def FieldList.toList : FieldList → List (String × String × GoType)
  | .nil => []
  | .cons n t ty rest => (n, t, ty) :: rest.toList

/-- The schema field enumeration ignores everything from a breaking
(non-exported) field on, wherever it occurs in the field list. -/
theorem addComponentFields_break (uname utag : String) (uty : GoType) (post : FieldList)
    (hu : fieldBreaksEnumeration uname = true) :
    ∀ (pre : FieldList) (c : Components) (om : ObjectMetadata),
      addComponentFields (pre.append (.cons uname utag uty post)) c om =
        addComponentFields pre c om
  | .nil, c, om => by
    show addComponentFields (.cons uname utag uty post) c om = _
    simp [addComponentFields, hu]
  | .cons n t ty rest, c, om => by
    show addComponentFields (.cons n t ty (rest.append (.cons uname utag uty post))) c om = _
    simp only [addComponentFields]
    cases hb : fieldBreaksEnumeration n with
    | true => simp [hb]
    | false =>
      simp only [hb, Bool.false_eq_true, if_false]
      cases hgs : getSchema ty c with
      | mk r c' =>
        cases r with
        | error e => rfl
        | ok s => exact addComponentFields_break uname utag uty post hu rest c' _

/-- The field loop of `structOfValidType` succeeds exactly when every
field's type (exported or not) is valid. -/
theorem structValidFields_none_iff (ats : List GoType) : ∀ (fs : FieldList),
    structValidFields fs ats = none ↔
      ∀ f ∈ fs.toList, typeIsValid f.2.2 ats = none
  | .nil => by simp [structValidFields, FieldList.toList]
  | .cons n t ty rest => by
    simp only [structValidFields, FieldList.toList]
    cases hv : typeIsValid ty ats with
    | some e =>
      simp only [List.mem_cons]
      constructor
      · intro h; exact absurd h (by simp)
      · intro h
        have := h (n, t, ty) (Or.inl rfl)
        rw [hv] at this
        exact absurd this (by simp)
    | none =>
      simp only [List.mem_cons]
      rw [structValidFields_none_iff ats rest]
      constructor
      · intro h f hf
        rcases hf with hf | hf
        · subst hf; exact hv
        · exact h f hf
      · intro h f hf
        exact h f (Or.inr hf)

/-- C5 counterexample: a struct whose only field is unexported and of an
unsupported type.  If field enumeration halted at the first non-exported
field in `structOfValidType` (as the claim states), validation would
succeed; instead the code validates the unexported field and errors.
Schema generation, by contrast, does halt: `addComponentIfNotExists`
succeeds and yields an empty component for the same struct. -/
theorem structOfValidType_checks_unexported_fields :
    fieldBreaksEnumeration "bad" = true ∧
    structOfValidType (.strct "badStruct" (.cons "bad" "" (.other "complex64") .nil)) [] =
      some (typeIsValidErr (.other "complex64") []) ∧
    addComponentIfNotExists (.strct "badStruct" (.cons "bad" "" (.other "complex64") .nil)) [] =
      (none, [("badStruct", emptyObjectMetadata)]) :=
  ⟨rfl, rfl, rfl⟩

/-- C5 (amended): field enumeration halts at the first non-exported
field in schema generation only: `addComponentIfNotExists` neither reads
nor adds any field from the first breaking name on (whatever follows
it), while type-validity checking (`typeIsValid` via
`structOfValidType`) validates every field, exported or not — it
succeeds exactly when all field types are valid. -/
theorem field_enumeration_halting_scope (uname utag : String) (uty : GoType)
    (post pre : FieldList) (structName : String) (c : Components)
    (obj : GoType) (ats : List GoType)
    (hu : fieldBreaksEnumeration uname = true) :
    addComponentIfNotExists
        (.strct structName (pre.append (.cons uname utag uty post))) c =
      addComponentIfNotExists (.strct structName pre) c ∧
    (structOfValidType obj ats = none ↔
      ∀ f ∈ obj.derefPtr.fieldsOf.toList, typeIsValid f.2.2 ats = none) := by
  constructor
  · simp only [addComponentIfNotExists, GoType.derefPtr, GoType.structName, GoType.fieldsOf]
    cases hc : Components.lookup c structName
    · simp only
      rw [addComponentFields_break uname utag uty post hu pre c emptyObjectMetadata]
    · simp only
  · exact structValidFields_none_iff ats obj.derefPtr.fieldsOf

/-- Witness for the amended C5: a struct with fields
[Exported1, unexported, Exported2] yields a component containing only
Exported1, and its validity check still inspects the field types after
the unexported one. -/
theorem field_enumeration_halting_scope_witness :
    addComponentIfNotExists
        (.strct "mixed" (.cons "Exported1" "" (.basic .string)
          (.cons "unexported" "" (.basic .string)
            (.cons "Exported2" "" (.basic .string) .nil)))) [] =
      addComponentIfNotExists (.strct "mixed" (.cons "Exported1" "" (.basic .string) .nil)) [] ∧
    (addComponentIfNotExists
        (.strct "mixed" (.cons "Exported1" "" (.basic .string)
          (.cons "unexported" "" (.basic .string)
            (.cons "Exported2" "" (.basic .string) .nil)))) []).2 =
      [("mixed", ⟨[("Exported1", .prim "string")], ["Exported1"], false⟩)] ∧
    structOfValidType
        (.strct "mixed2" (.cons "Exported1" "" (.basic .string)
          (.cons "unexported" "" (.other "complex64") .nil))) [] ≠ none := by
  refine ⟨?_, rfl, ?_⟩
  · have h := field_enumeration_halting_scope "unexported" "" (.basic .string)
      (.cons "Exported2" "" (.basic .string) .nil)
      (.cons "Exported1" "" (.basic .string) .nil) "mixed" []
      (.strct "mixed" .nil) [] rfl
    exact h.1
  · have h := field_enumeration_halting_scope "u" "" (.basic .string) .nil .nil "x" []
      (.strct "mixed2" (.cons "Exported1" "" (.basic .string)
        (.cons "unexported" "" (.other "complex64") .nil))) [] rfl
    intro hnone
    have hall := h.2.mp hnone ("unexported", "", .other "complex64") (by decide)
    exact absurd hall (by decide)

/-- A struct named "N" (standing for a type whose bare declared name is
N in some package). -/
def innerSameName : GoType := .strct "N" (.cons "P" "" (.basic .string) .nil)

/-- A different struct type whose bare declared name is also "N" (Go
`reflect.Type.Name()` drops the package qualifier, so two distinct
struct types from different packages share a bare name) and whose first
field has type `innerSameName`. -/
def outerSameName : GoType := .strct "N" (.cons "F" "" innerSameName .nil)

/-- The component `innerSameName` generates. -/
def innerComponent : ObjectMetadata :=
  { properties := [("P", .prim "string")], required := ["P"], additionalProperties := false }

/-- The component `outerSameName` generates. -/
def outerComponent : ObjectMetadata :=
  { properties := [("F", .ref "#/components/schemas/N")], required := ["F"],
    additionalProperties := false }

/-- C10 counterexample: the final insert of `addComponentIfNotExists` is
unconditional, so within one call the enclosing struct overwrites a
same-named component registered while its fields were processed.
Processing `outerSameName` from an empty table first registers
`innerSameName`'s component under "N" (second conjunct: the table right
after the field enumeration, before the enclosing insert) and then
overwrites it with `outerSameName`'s component (third conjunct), so the
first type registered under "N" does not define the component
permanently, contradicting the claim. -/
theorem addComponent_same_name_overwritten :
    (addComponentIfNotExists innerSameName []).2 = [("N", innerComponent)] ∧
    addComponentFields (.cons "F" "" innerSameName .nil) [] emptyObjectMetadata =
      (.ok outerComponent, [("N", innerComponent)]) ∧
    (addComponentIfNotExists outerSameName []).2 = [("N", outerComponent)] ∧
    innerComponent ≠ outerComponent :=
  ⟨rfl, rfl, rfl, by decide⟩

/-- C10 (amended): the component table is keyed solely by the struct
type's bare declared name — a struct and a pointer to that struct map to
the same component entry — and when the name is already present at the
time `addComponentIfNotExists` is entered, the call returns immediately
without recomputing, leaving the whole table unchanged; so a later
top-level registration never overwrites an existing entry (a same-named
component registered while processing an enclosing struct's own fields
is, however, overwritten by the enclosing struct's final insert). -/
theorem addComponent_keyed_by_name_first_entry_kept (n : String) (fs : FieldList)
    (t : GoType) (c : Components) (om : ObjectMetadata)
    (h : Components.lookup c t.derefPtr.structName = some om) :
    addComponentIfNotExists (.ptr (.strct n fs)) c = addComponentIfNotExists (.strct n fs) c ∧
    addComponentIfNotExists t c = (none, c) := by
  constructor
  · rfl
  · simp only [addComponentIfNotExists, h]

/-- Witness for the amended C10: with "N" already bound to
`innerComponent`, registering the pointer form of the other "N" struct
returns at once and leaves the table unchanged. -/
theorem addComponent_keyed_by_name_first_entry_kept_witness :
    addComponentIfNotExists (.ptr outerSameName) [("N", innerComponent)] =
      addComponentIfNotExists outerSameName [("N", innerComponent)] ∧
    addComponentIfNotExists outerSameName [("N", innerComponent)] =
      (none, [("N", innerComponent)]) := by
  have h := addComponent_keyed_by_name_first_entry_kept "N"
    (.cons "F" "" innerSameName .nil) outerSameName [("N", innerComponent)]
    innerComponent rfl
  exact ⟨h.1, h.2⟩

/-- C1: for a dispatch of a known operation in a namespace declaring
before and after hooks, the phases run strictly in the order
before-hook, main operation, after-hook, threading one world through
(`w` to `w1` to `w2` to `w3`): a before-hook error makes the main
operation and after-hook never run, the dispatch ending in the
before-hook's world with its error as the response; a main error makes
the after-hook never run and becomes the response; an after-hook error
replaces the otherwise successful response; with no errors the response
is the main operation's payload. -/
theorem dispatch_hook_ordering {W : Type} (cc : ContractChaincode W) (ns op : String)
    (entry : contractChaincodeContract W) (b : W → W × Option String)
    (a : W → Option String → W × Option String) (m : RegisteredOp W) (w w1 : W)
    (hns : lookupName cc.contracts ns = some entry)
    (hop : lookupName entry.functions op = some m)
    (hb : entry.beforeTransaction = some b)
    (ha : entry.afterTransaction = some a) :
    (∀ e, b w = (w1, some e) → dispatchParsed cc ns op w = (w1, .failure e)) ∧
    (∀ w2 e, b w = (w1, none) → m.run w1 = (w2, .error e) →
      dispatchParsed cc ns op w = (w2, .failure e)) ∧
    (∀ w2 w3 p v e, b w = (w1, none) → m.run w1 = (w2, .ok (p, v)) →
      a w2 v = (w3, some e) → dispatchParsed cc ns op w = (w3, .failure e)) ∧
    (∀ w2 w3 p v, b w = (w1, none) → m.run w1 = (w2, .ok (p, v)) →
      a w2 v = (w3, none) → dispatchParsed cc ns op w = (w3, .success p)) := by
  have hd : dispatchParsed cc ns op w = runOperation (some b) m.run (some a) w := by
    simp [dispatchParsed, hns, hop, hb, ha]
  refine ⟨?_, ?_, ?_, ?_⟩
  · intro e hbw
    rw [hd]
    simp [runOperation, hbw]
  · intro w2 e hbw hm
    rw [hd]
    simp [runOperation, hbw, hm]
  · intro w2 w3 p v e hbw hm haf
    rw [hd]
    simp [runOperation, hbw, hm, haf]
  · intro w2 w3 p v hbw hm haf
    rw [hd]
    simp [runOperation, hbw, hm, haf]

/-- A logging world for the dispatch witnesses: the operation bodies and
hooks append their tags to a shared log, as in the spec's hook-ordering
scenario. -/
def loggingEntry : contractChaincodeContract (List String) :=
  { version := "latest",
    functions := [("LogNamed",
      { callType := .Submit,
        run := fun w => (w ++ ["M"], .ok ("named response", some "named response")) })],
    beforeTransaction := some (fun w => (w ++ ["B"], none)),
    afterTransaction := some (fun w _ => (w ++ ["A"], none)),
    unknownTransaction := none }

/-- A namespace whose unknown hook answers "ok" and that declares no
before or after hook. -/
def unknownHookEntry : contractChaincodeContract (List String) :=
  { version := "latest",
    functions := [],
    beforeTransaction := none,
    afterTransaction := none,
    unknownTransaction := some (fun w => (w, .ok "ok")) }

/-- The sample registry for the dispatch witnesses. -/
def sampleChaincode : ContractChaincode (List String) :=
  { contracts := [("goodContract", loggingEntry), ("hooked", unknownHookEntry)],
    defaultContract := "goodContract",
    metadata := ⟨[]⟩ }

/-- Witness for C1: a successful dispatch through before, main and after
logs [B, M, A] in order and answers the main operation's payload. -/
theorem dispatch_hook_ordering_witness :
    dispatchParsed sampleChaincode "goodContract" "LogNamed" [] =
      (["B", "M", "A"], .success "named response") := by
  have h := dispatch_hook_ordering sampleChaincode "goodContract" "LogNamed"
    loggingEntry (fun w => (w ++ ["B"], none)) (fun w _ => (w ++ ["A"], none))
    ({ callType := .Submit,
       run := fun w => (w ++ ["M"], .ok ("named response", some "named response")) })
    [] ["B"] rfl rfl rfl rfl
  exact h.2.2.2 ["B", "M"] ["B", "M", "A"] "named response" (some "named response")
    rfl rfl rfl

/-- C2: a dispatch naming a namespace not in the registry fails with
"Contract not found with name <ns>"; a known namespace with an
unregistered operation and no unknown hook fails with
"Function <op> not found in contract <ns>"; with an unknown hook
declared (and no before/after hooks, as in the covering scenarios) the
hook's outcome becomes the response: its payload on success, its error
on failure. -/
theorem dispatch_unknown_resolution {W : Type} (cc : ContractChaincode W)
    (ns op : String) (w : W) :
    (lookupName cc.contracts ns = none →
      dispatchParsed cc ns op w = (w, .failure ("Contract not found with name " ++ ns))) ∧
    (∀ entry, lookupName cc.contracts ns = some entry →
      lookupName entry.functions op = none → entry.unknownTransaction = none →
      dispatchParsed cc ns op w =
        (w, .failure ("Function " ++ op ++ " not found in contract " ++ ns))) ∧
    (∀ entry u, lookupName cc.contracts ns = some entry →
      lookupName entry.functions op = none → entry.unknownTransaction = some u →
      entry.beforeTransaction = none → entry.afterTransaction = none →
      (∀ w' payload, u w = (w', .ok payload) →
        dispatchParsed cc ns op w = (w', .success payload)) ∧
      (∀ w' e, u w = (w', .error e) →
        dispatchParsed cc ns op w = (w', .failure e))) := by
  refine ⟨?_, ?_, ?_⟩
  · intro h
    simp [dispatchParsed, h]
  · intro entry hns hop hu
    simp [dispatchParsed, hns, hop, hu]
  · intro entry u hns hop hu hb ha
    have hd : ∀ r, u w = r → dispatchParsed cc ns op w =
        (match r with
         | (w'', .error err) => (w'', Response.failure err)
         | (w'', .ok payload) => (w'', Response.success payload)) := by
      intro r hr
      simp only [dispatchParsed, hns, hop, hu, hb, ha, runOperation]
      rw [hr]
      cases r with
      | mk w'' res => cases res <;> rfl
    constructor
    · intro w' payload hw
      exact hd (w', .ok payload) hw
    · intro w' e hw
      exact hd (w', .error e) hw

/-- Witness for C2: the three resolutions at the sample registry: an
unknown namespace, an unknown operation without an unknown hook, and an
unknown operation whose unknown hook answers "ok". -/
theorem dispatch_unknown_resolution_witness :
    dispatchParsed sampleChaincode "somebadname" "fn" [] =
      ([], .failure "Contract not found with name somebadname") ∧
    dispatchParsed sampleChaincode "goodContract" "somebadfunctionname" [] =
      ([], .failure "Function somebadfunctionname not found in contract goodContract") ∧
    dispatchParsed sampleChaincode "hooked" "somebadfunctionname" [] =
      ([], .success "ok") := by
  refine ⟨?_, ?_, ?_⟩
  · exact (dispatch_unknown_resolution sampleChaincode "somebadname" "fn" []).1 rfl
  · exact (dispatch_unknown_resolution sampleChaincode "goodContract"
      "somebadfunctionname" []).2.1 loggingEntry rfl rfl rfl
  · exact ((dispatch_unknown_resolution sampleChaincode "hooked"
      "somebadfunctionname" []).2.2 unknownHookEntry (fun w => (w, .ok "ok"))
      rfl rfl rfl rfl rfl).1 [] "ok" rfl

/-- C3: registering a source object whose derived (declared override or
type-derived) name already names a registry entry fails with the
conflict error; the registry value is only ever replaced through the
success branch, so on this error branch the caller's map — including the
entry stored under the contested name, its operations and version — is
exactly the one it had before the call. -/
theorem addContract_conflict {W : Type}
    (contracts : List (String × contractChaincodeContract W))
    (d : ContractDetails W) (excludes : List String) (e : contractChaincodeContract W)
    (h : lookupName contracts (deriveContractName d) = some e) :
    addContract contracts d excludes =
      .error ("Multiple contracts being merged into chaincode with name "
        ++ deriveContractName d) := by
  simp only [addContract, h]

/-- A registerable object with a declared name override, for the C3 and
C4 witnesses. -/
def customNameDetails : ContractDetails (List String) :=
  { typeName := "goodContract",
    name := "customname",
    version := "",
    transactions := [("ReturnsString", .ok (fun w => (w, .ok ("Some string", none))))],
    evaluateTransactions := [],
    ignoredFunctions := [],
    beforeTransaction := none,
    afterTransaction := none,
    unknownTransaction := none }

/-- Witness for C3: a registry already holding "customname" rejects a
second object deriving that name, with the pinned message. -/
theorem addContract_conflict_witness :
    addContract [("customname", loggingEntry)] customNameDetails [] =
      .error "Multiple contracts being merged into chaincode with name customname" := by
  have h := addContract_conflict [("customname", loggingEntry)] customNameDetails []
    loggingEntry rfl
  exact h

/-- Lookup across an append: the left map wins. -/
theorem lookupName_append {α : Type} (l1 l2 : List (String × α)) (k : String) :
    lookupName (l1 ++ l2) k =
      match lookupName l1 k with
      | some v => some v
      | none => lookupName l2 k := by
  induction l1 with
  | nil => rfl
  | cons x rest ih =>
    cases x with
    | mk k' v' =>
      show lookupName ((k', v') :: (rest ++ l2)) k = _
      simp only [lookupName, List.lookup] at ih ⊢
      cases hk : k == k'
      · simpa using ih
      · rfl

/-- A successful `addContract` grows the namespace map by exactly one
entry. -/
theorem addContract_ok_length {W : Type}
    (c : List (String × contractChaincodeContract W)) (d : ContractDetails W)
    (ex : List String) (c' : List (String × contractChaincodeContract W))
    (h : addContract c d ex = .ok c') : c'.length = c.length + 1 := by
  simp only [addContract] at h
  cases h1 : lookupName c (deriveContractName d) with
  | some e => rw [h1] at h; simp at h
  | none =>
    rw [h1] at h
    cases h2 : buildFunctions d.transactions d.evaluateTransactions ex (W := W) with
    | error e => rw [h2] at h; simp at h
    | ok fns =>
      rw [h2] at h
      injection h with h'
      subst h'
      simp

/-- A successful registration fold adds one entry per source object. -/
theorem addContractsFold_ok_length {W : Type} :
    ∀ (configs : List (ContractDetails W)) (c c' : List (String × contractChaincodeContract W)),
      addContractsFold configs c = .ok c' → c'.length = c.length + configs.length := by
  intro configs
  induction configs with
  | nil =>
    intro c c' h
    injection h with h'
    subst h'
    rfl
  | cons d rest ih =>
    intro c c' h
    simp only [addContractsFold] at h
    cases h1 : addContract c d (contractDenyList ++ d.ignoredFunctions) with
    | error e => rw [h1] at h; simp at h
    | ok c1 =>
      rw [h1] at h
      have hl1 := addContract_ok_length c d _ c1 h1
      have hl2 := ih c1 c' h
      simp only [List.length_cons]
      omega

/-- The registration fold splits over an append, aborting with the left
part's error when there is one. -/
theorem addContractsFold_append {W : Type} :
    ∀ (l1 l2 : List (ContractDetails W)) (c : List (String × contractChaincodeContract W)),
      addContractsFold (l1 ++ l2) c =
        match addContractsFold l1 c with
        | .error e => .error e
        | .ok c' => addContractsFold l2 c' := by
  intro l1
  induction l1 with
  | nil => intro l2 c; rfl
  | cons d rest ih =>
    intro l2 c
    show addContractsFold (d :: (rest ++ l2)) c = _
    simp only [addContractsFold]
    cases h1 : addContract c d (contractDenyList ++ d.ignoredFunctions) with
    | error e => rfl
    | ok c1 => exact ih l2 c1

/-- The metadata document of the finalized namespace topology: the user
namespaces plus the built-in one (whose reflected name, version and
single evaluate operation do not depend on the document bound into its
operation). -/
def finalMetadataDoc {W : Type}
    (cc1 : List (String × contractChaincodeContract W)) : MetadataDocument :=
  reflectMetadataDoc (cc1 ++ [(SystemContractName, systemContractEntry (W := W) ⟨[]⟩)])

/-- The registry `CreateNewChaincode` produces from a successful fold. -/
def finalChaincode {W : Type} (configs : List (ContractDetails W))
    (cc1 : List (String × contractChaincodeContract W)) : ContractChaincode W :=
  { contracts := cc1 ++ [(SystemContractName, systemContractEntry (finalMetadataDoc cc1))],
    defaultContract := (configs.map deriveContractName).headD "",
    metadata := finalMetadataDoc cc1 }

/-- C4: `CreateNewChaincode` folds registration over the source objects
and the first failure aborts construction, returning exactly that error
and no registry; on success exactly one namespace beyond the supplied
objects is added, under the built-in name, exposing a single
evaluate-tagged "GetMetadata" operation bound to the metadata document
of the finalized topology, which is also the registry's stored
document. -/
theorem createNewChaincode_registry {W : Type} (configs : List (ContractDetails W)) :
    (∀ (pre : List (ContractDetails W)) (d : ContractDetails W)
        (rest : List (ContractDetails W))
        (cc1 : List (String × contractChaincodeContract W)) (err : String),
      configs = pre ++ d :: rest →
      addContractsFold pre [] = .ok cc1 →
      addContract cc1 d (contractDenyList ++ d.ignoredFunctions) = .error err →
      CreateNewChaincode configs = .error err) ∧
    (∀ cc1, addContractsFold configs [] = .ok cc1 →
      lookupName cc1 SystemContractName = none →
      CreateNewChaincode configs = .ok (finalChaincode configs cc1) ∧
      cc1.length = configs.length ∧
      (finalChaincode configs cc1).contracts.length = configs.length + 1 ∧
      lookupName (finalChaincode configs cc1).contracts SystemContractName =
        some (systemContractEntry (finalMetadataDoc cc1)) ∧
      (systemContractEntry (W := W) (finalMetadataDoc cc1)).functions =
        [("GetMetadata", getMetadataFn (finalMetadataDoc cc1))] ∧
      (getMetadataFn (W := W) (finalMetadataDoc cc1)).callType = .Evaluate ∧
      (finalChaincode configs cc1).metadata = finalMetadataDoc cc1) := by
  constructor
  · intro pre d rest cc1 err hsplit hfold herr
    subst hsplit
    simp only [CreateNewChaincode, addContractsFold_append, hfold, addContractsFold, herr]
  · intro cc1 hfold hsys
    refine ⟨?_, ?_, ?_, ?_, rfl, rfl, rfl⟩
    · simp only [CreateNewChaincode, hfold, hsys]
      rfl
    · have h := addContractsFold_ok_length configs [] cc1 hfold
      simpa using h
    · have h : cc1.length = configs.length := by
        simpa using addContractsFold_ok_length configs [] cc1 hfold
      simp only [finalChaincode, List.length_append, List.length_singleton]
      omega
    · simp only [finalChaincode]
      rw [lookupName_append]
      rw [hsys]
      simp [lookupName, List.lookup]

/-- The namespace map that registering `customNameDetails` alone
produces. -/
def customNameEntries : List (String × contractChaincodeContract (List String)) :=
  [("customname",
    { version := "latest",
      functions := [("ReturnsString",
        { callType := .Submit,
          run := fun w => (w, .ok ("Some string", none)) })],
      beforeTransaction := none,
      afterTransaction := none,
      unknownTransaction := none })]

/-- Witness for C4: building a chaincode from one contract yields the
finalized registry with two namespaces, the built-in one carrying the
single evaluate-tagged metadata operation. -/
theorem createNewChaincode_registry_witness :
    CreateNewChaincode [customNameDetails] =
      .ok (finalChaincode [customNameDetails] customNameEntries) ∧
    (finalChaincode [customNameDetails] customNameEntries).contracts.length = 2 ∧
    lookupName (finalChaincode [customNameDetails] customNameEntries).contracts
        SystemContractName = some (systemContractEntry (finalMetadataDoc customNameEntries)) ∧
    (getMetadataFn (W := List String) (finalMetadataDoc customNameEntries)).callType =
      .Evaluate := by
  have h := (createNewChaincode_registry [customNameDetails]).2 customNameEntries rfl rfl
  exact ⟨h.1, h.2.2.1, h.2.2.2.1, h.2.2.2.2.2.1⟩

end ContractApi
